import Mathlib

/-!
# AliAnalysisTaskLFefficiencies

A shallow embedding of `PWGLF/QATasks/AliAnalysisTaskLFefficiencies.cxx`.

Conventions of the embedding.

* `R` stands for the floating-point coordinates (`double`); it is any linearly ordered
  field, so the development can be read over the rationals (where it evaluates) and over
  the reals.  Not-a-number values are outside the model.
* `B` is the type of global bins of a `TH3D`; the binning of the three axes is the
  function `FindBin` of the framework, left arbitrary.
* Every histogram is filled with weight one, so bin contents and entry counters are
  natural numbers.
* The arrays `fGeneratedYPhiPt[kSPECIESC][2]` and `fReconstructedYPhiPt[kSPECIESC][2][5]`
  are functions of their indices.
* `::Fatal` ends the process; `UserExec` then yields `Except.error` carrying the message
  and the histograms as they were at that moment.
* `PostData` only publishes the output list and does not touch a histogram; it is not
  modelled.
* Particle codes, labels, identifiers and charges are mathematical integers; the tracks of
  an event are `AliAODTrack` objects, so the `dynamic_cast` of the track loop succeeds.
* `stack->At(i)` is the lookup `stack[i]?`: it yields nothing when `i` is not the index of
  a particle of the array.
-/

namespace AliAnalysisTaskLFefficiencies

/-! ## Collaborators that live outside the source file -/

/-- The species table `AliPID`, of which the task uses `kSPECIESC`, `ParticleCode`,
`ParticleCharge`, `ParticleMass` and `ParticleShortName`.  The table is defined by the
framework; it is a parameter here. -/
structure AliPID (R : Type) where
  kSPECIESC : Nat
  ParticleCode : Nat → Int
  ParticleCharge : Nat → R
  ParticleMass : Nat → R
  ParticleShortName : Nat → String

/-- The accessors of `AliAODMCParticle` read by the task. -/
structure AliAODMCParticle (R : Type) where
  IsPhysicalPrimary : Bool
  GetPdgCode : Int
  Charge : Int
  Y : R
  Phi : R
  Pt : R

/-- The accessors of `AliAODTrack` read by the task. -/
structure AliAODTrack (R : Type) where
  GetID : Int
  GetLabel : Int
  Pt : R
  Eta : R
  Phi : R
  TestFilterBit : Nat → Bool
  GetStatus : Nat
  GetIntegratedLength : R

/-- The two queries made to `AliPIDResponse`; the second argument is the species index. -/
structure AliPIDResponse (R : Type) where
  NumberOfSigmasTPC : AliAODTrack R → Nat → R
  NumberOfSigmasTOF : AliAODTrack R → Nat → R

/-- The input event: its tracks (`GetNumberOfTracks`, `GetTrack`) and the result of
`GetList()->FindObject(AliAODMCParticle::StdBranchName())`, which is `none` when the
Monte Carlo particle array is absent. -/
structure AliVEvent (R : Type) where
  tracks : List (AliAODTrack R)
  mcparticles : Option (List (AliAODMCParticle R))

/-- Everything the task obtains from the framework during a run. `rapidity a b c d` is
the value of `v.Y()` after `v.SetPtEtaPhiM(a, b, c, d)`; `kTOFout` and `kTIME` are the
status masks of `AliVTrack`. -/
structure Framework (R B : Type) where
  pidTable : AliPID R
  FindBin : R → R → R → B
  AcceptEvent : AliVEvent R → Bool
  GetPIDResponse : Option (AliPIDResponse R)
  kTOFout : Nat
  kTIME : Nat
  rapidity : R → R → R → R → R

/-! ## Histograms -/

/-- A three-dimensional histogram: name, title, number of entries, bin contents. -/
structure TH3D (B : Type) where
  fName : String
  fTitle : String
  fEntries : Nat
  GetBinContent : B → Nat

/-- The update `TH3D::Fill` performs on the bin the coordinates fall into. -/
def TH3D.FillBin {B : Type} [DecidableEq B] (h : TH3D B) (bin : B) : TH3D B :=
  { h with
    fEntries := h.fEntries + 1
    GetBinContent := fun b => if b = bin then h.GetBinContent b + 1 else h.GetBinContent b }

/-- The call `h->Fill(x, y, z)`. -/
def TH3D.Fill {R B : Type} [DecidableEq B] (findBin : R → R → R → B) (h : TH3D B)
    (x y z : R) : TH3D B :=
  h.FillBin (findBin x y z)

/-! ## Static members -/

/-- The array `fPosNeg[2]`: "pos" at index zero, "neg" at index one. -/
def fPosNeg : List String := ["pos", "neg"]

/-- The constant `fNcuts = 5`. -/
def fNcuts : Nat := 5

/-- The array `fCutNames[5]`. -/
def fCutNames : List String :=
  ["FB4", "FB8", "FB8+PID TPC", "FB8 + TOF matching", "FB8 + PID TOF"]

/-- The ROOT bit mask `BIT(n)`. -/
def BIT (n : Nat) : Nat := 1 <<< n

/-! ## The task -/

/-- The histogram members of the task. -/
structure State (B : Type) where
  fGeneratedYPhiPt : Nat → Nat → TH3D B
  fReconstructedYPhiPt : Nat → Nat → Nat → TH3D B

/-- The two fatal diagnostics of `UserExec`. -/
inductive FatalError where
  | missingPIDResponse
  | missingMCParticleArray
  deriving DecidableEq, Repr

/-- The histograms `UserCreateOutputObjects` allocates: empty, named by species, charge
label and, for the reconstructed ones, cut index. -/
def UserCreateOutputObjects {R : Type} (B : Type) (pidTable : AliPID R) : State B where
  fGeneratedYPhiPt := fun iSpecies iCharge =>
    { fName := "Gen_" ++ pidTable.ParticleShortName iSpecies ++ "_" ++ fPosNeg.getD iCharge ""
      fTitle := ";y;#varphi;#it\x7bp\x7d_\x7bT\x7d (GeV/#it\x7bc\x7d)"
      fEntries := 0
      GetBinContent := fun _ => 0 }
  fReconstructedYPhiPt := fun iSpecies iCharge iCut =>
    { fName := "Rec_" ++ pidTable.ParticleShortName iSpecies ++ "_" ++ fPosNeg.getD iCharge ""
        ++ "_" ++ toString iCut
      fTitle := fCutNames.getD iCut "" ++ ";y;#varphi;#it\x7bp\x7d_\x7bT\x7d (GeV/#it\x7bc\x7d)"
      fEntries := 0
      GetBinContent := fun _ => 0 }

/-- The member function `HasTOF`. -/
def HasTOF {R B : Type} [LinearOrderedField R] (fw : Framework R B) (track : AliAODTrack R) :
    Bool :=
  let hasTOFout : Bool := (track.GetStatus &&& fw.kTOFout) != 0
  let hasTOFtime : Bool := (track.GetStatus &&& fw.kTIME) != 0
  let hasGoodLength : Bool := decide (track.GetIntegratedLength > 350)
  hasTOFout && hasTOFtime && hasGoodLength

/-- The species scan shared by both loops of `UserExec`: the first index below
`kSPECIESC` whose particle code equals `pdg`, if there is one. -/
def findSpecies {R : Type} (pidTable : AliPID R) (pdg : Int) : Option Nat :=
  (List.range pidTable.kSPECIESC).find? (fun iSpecies => pdg == pidTable.ParticleCode iSpecies)

/-- The charge index `part->Charge() > 0 ? 1 : 0`. -/
def chargeIndex {R : Type} (part : AliAODMCParticle R) : Nat :=
  if part.Charge > 0 then 1 else 0

/-- Replace one generated histogram by its filled version. -/
def State.fillGenerated {B : Type} [DecidableEq B] (st : State B) (iSpecies iCharge : Nat)
    (bin : B) : State B :=
  { st with
    fGeneratedYPhiPt := fun s c =>
      if s = iSpecies ∧ c = iCharge then (st.fGeneratedYPhiPt s c).FillBin bin
      else st.fGeneratedYPhiPt s c }

/-- Replace one reconstructed histogram by its filled version. -/
def State.fillReconstructed {B : Type} [DecidableEq B] (st : State B)
    (iSpecies iCharge iCut : Nat) (bin : B) : State B :=
  { st with
    fReconstructedYPhiPt := fun s c k =>
      if s = iSpecies ∧ c = iCharge ∧ k = iCut then (st.fReconstructedYPhiPt s c k).FillBin bin
      else st.fReconstructedYPhiPt s c k }

/-- The body of the loop over the Monte Carlo particles. -/
def truthStep {R B : Type} [DecidableEq B] (fw : Framework R B) (st : State B)
    (part : AliAODMCParticle R) : State B :=
  if part.IsPhysicalPrimary = false then st
  else
    let pdg : Int := |part.GetPdgCode|
    let iCharge : Nat := chargeIndex part
    match findSpecies fw.pidTable pdg with
    | some iSpecies => st.fillGenerated iSpecies iCharge (fw.FindBin part.Y part.Phi part.Pt)
    | none => st

/-- The loop over the Monte Carlo particles. -/
def truthLoop {R B : Type} [DecidableEq B] (fw : Framework R B) (st : State B)
    (stack : List (AliAODMCParticle R)) : State B :=
  stack.foldl (truthStep fw) st

/-- The array `cuts[fNcuts]` of a track under the species hypothesis `iSpecies`. -/
def cuts {R B : Type} [LinearOrderedField R] (fw : Framework R B) (pid : AliPIDResponse R)
    (track : AliAODTrack R) (iSpecies : Nat) : List Bool :=
  let hasFB8 : Bool := track.TestFilterBit (BIT 8)
  let TPCpid : Bool := decide (|pid.NumberOfSigmasTPC track iSpecies| < 3)
  let hasTOF : Bool := HasTOF fw track
  let TOFpid : Bool := decide (|pid.NumberOfSigmasTOF track iSpecies| < 3)
  [true, hasFB8, hasFB8 && TPCpid, hasFB8 && hasTOF, hasFB8 && TOFpid]

/-- The loop over the cut indices that fills the reconstructed histograms. -/
def fillCuts {B : Type} [DecidableEq B] (st : State B) (iSpecies iCharge : Nat)
    (cutFlags : List Bool) (bin : B) : State B :=
  (List.range fNcuts).foldl
    (fun acc iCut =>
      if cutFlags.getD iCut false then acc.fillReconstructed iSpecies iCharge iCut bin else acc)
    st

/-- The body of the loop over the reconstructed tracks. -/
def trackStep {R B : Type} [LinearOrderedField R] [DecidableEq B] (fw : Framework R B)
    (pid : AliPIDResponse R) (stack : List (AliAODMCParticle R)) (st : State B)
    (track : AliAODTrack R) : State B :=
  if track.GetID ≤ 0 then st
  else
    match stack[track.GetLabel.natAbs]? with
    | none => st
    | some part =>
      if part.IsPhysicalPrimary = false then st
      else
        let iCharge : Nat := chargeIndex part
        match findSpecies fw.pidTable |part.GetPdgCode| with
        | none => st
        | some iSpecies =>
          let y : R := fw.rapidity (track.Pt * fw.pidTable.ParticleCharge iSpecies) track.Eta
            track.Phi (fw.pidTable.ParticleMass iSpecies)
          fillCuts st iSpecies iCharge (cuts fw pid track iSpecies)
            (fw.FindBin y track.Phi track.Pt)

/-- The loop over the reconstructed tracks. -/
def trackLoop {R B : Type} [LinearOrderedField R] [DecidableEq B] (fw : Framework R B)
    (pid : AliPIDResponse R) (stack : List (AliAODMCParticle R)) (st : State B)
    (tracks : List (AliAODTrack R)) : State B :=
  tracks.foldl (trackStep fw pid stack) st

/-- The member function `UserExec`. -/
def UserExec {R B : Type} [LinearOrderedField R] [DecidableEq B] (fw : Framework R B)
    (st : State B) (ev : AliVEvent R) : Except (FatalError × State B) (State B) :=
  if fw.AcceptEvent ev = false then .ok st
  else
    match fw.GetPIDResponse with
    | none => .error (.missingPIDResponse, st)
    | some pid =>
      match ev.mcparticles with
      | none => .error (.missingMCParticleArray, st)
      | some stack => .ok (trackLoop fw pid stack (truthLoop fw st stack) ev.tracks)

/-- The framework calling `UserExec` once per event until the events are exhausted or a
fatal error ends the process. -/
def processEvents {R B : Type} [LinearOrderedField R] [DecidableEq B] (fw : Framework R B) :
    State B → List (AliVEvent R) → Except (FatalError × State B) (State B)
  | st, [] => .ok st
  | st, ev :: evs =>
    match UserExec fw st ev with
    | .ok st1 => processEvents fw st1 evs
    | .error e => .error e


/-! ## The four-vector used for the rapidity -/

/-- Modelled from the spec: the elementary functions the four-vector arithmetic relies on
(cosine, sine, hyperbolic sine, square root, logarithm); they come from the mathematical
library behind ROOT and are not part of the source file. -/
structure TMath (R : Type) where
  Cos : R → R
  Sin : R → R
  SinH : R → R
  Sqrt : R → R
  Log : R → R

/-- Modelled from the spec: the components of a `TLorentzVector`, a ROOT class that is
not part of the source file. -/
structure TLorentzVector (R : Type) where
  fX : R
  fY : R
  fZ : R
  fE : R

/-- Modelled from the spec: `TLorentzVector::SetPtEtaPhiM`, absent from the source file,
read as the spec describes it: the momentum is `(pt cos phi, pt sin phi, pt sinh eta)`
and the energy is the one of a particle of mass `m` with that momentum. -/
def TLorentzVector.SetPtEtaPhiM {R : Type} [LinearOrderedField R] (tm : TMath R)
    (pt eta phi m : R) : TLorentzVector R :=
  let x : R := pt * tm.Cos phi
  let y : R := pt * tm.Sin phi
  let z : R := pt * tm.SinH eta
  { fX := x, fY := y, fZ := z, fE := tm.Sqrt (x * x + y * y + z * z + m * m) }

/-- Modelled from the spec: `TLorentzVector::Y`, absent from the source file: the
rapidity `log ((E + pz) / (E - pz)) / 2`. -/
def TLorentzVector.Y {R : Type} [LinearOrderedField R] (tm : TMath R)
    (v : TLorentzVector R) : R :=
  1 / 2 * tm.Log ((v.fE + v.fZ) / (v.fE - v.fZ))

/-! ## Observations used to state the properties -/

/-- Sum of `GetEntries()` over the generated histograms. -/
def generatedEntries {R B : Type} (pidTable : AliPID R) (st : State B) : Nat :=
  ∑ iSpecies ∈ Finset.range pidTable.kSPECIESC, ∑ iCharge ∈ Finset.range 2,
    (st.fGeneratedYPhiPt iSpecies iCharge).fEntries

/-- Sum of `GetEntries()` over the reconstructed histograms. -/
def reconstructedEntries {R B : Type} (pidTable : AliPID R) (st : State B) : Nat :=
  ∑ iSpecies ∈ Finset.range pidTable.kSPECIESC, ∑ iCharge ∈ Finset.range 2,
    ∑ iCut ∈ Finset.range fNcuts, (st.fReconstructedYPhiPt iSpecies iCharge iCut).fEntries

/-- A particle code is recognized when some species of the table carries it. -/
def isCatalogCode {R : Type} (pidTable : AliPID R) (pdg : Int) : Bool :=
  (List.range pidTable.kSPECIESC).any (fun iSpecies => pidTable.ParticleCode iSpecies == pdg)

/-- A Monte Carlo particle that is a physical primary of a recognized species. -/
def isRecognizedPrimary {R : Type} (pidTable : AliPID R) (part : AliAODMCParticle R) : Bool :=
  part.IsPhysicalPrimary && isCatalogCode pidTable |part.GetPdgCode|

/-- A track that passes the identifier, truth-link and species checks of the track loop. -/
def passesTrackChecks {R : Type} (pidTable : AliPID R) (stack : List (AliAODMCParticle R))
    (track : AliAODTrack R) : Bool :=
  decide (0 < track.GetID) &&
    match stack[track.GetLabel.natAbs]? with
    | none => false
    | some part => isRecognizedPrimary pidTable part

/-- The histograms at the end of a run: those returned, or those standing when a fatal
error ended the process. -/
def histogramsOf {B : Type} : Except (FatalError × State B) (State B) → State B
  | .ok st => st
  | .error e => e.2

/-- The cut ordering of one bin: cuts 2, 3 and 4 are below cut 1, which is below cut 0. -/
def cutsOrdered {B : Type} (st : State B) (iSpecies iCharge : Nat) (bin : B) : Prop :=
  (st.fReconstructedYPhiPt iSpecies iCharge 2).GetBinContent bin
      ≤ (st.fReconstructedYPhiPt iSpecies iCharge 1).GetBinContent bin ∧
  (st.fReconstructedYPhiPt iSpecies iCharge 3).GetBinContent bin
      ≤ (st.fReconstructedYPhiPt iSpecies iCharge 1).GetBinContent bin ∧
  (st.fReconstructedYPhiPt iSpecies iCharge 4).GetBinContent bin
      ≤ (st.fReconstructedYPhiPt iSpecies iCharge 1).GetBinContent bin ∧
  (st.fReconstructedYPhiPt iSpecies iCharge 1).GetBinContent bin
      ≤ (st.fReconstructedYPhiPt iSpecies iCharge 0).GetBinContent bin

/-! ## Concrete inputs

Rational coordinates, one bin per point. -/

/-- A species table laid out like `AliPID`: electron, muon, pion, kaon, proton, deuteron,
triton, helium-3, alpha. -/
def sampleTable : AliPID ℚ where
  kSPECIESC := 9
  ParticleCode := fun i =>
    [11, 13, 211, 321, 2212, 1000010020, 1000010030, 1000020030, 1000020040].getD i 0
  ParticleCharge := fun i => [1, 1, 1, 1, 1, 1, 1, 2, 2].getD i 0
  ParticleMass := fun i =>
    [511 / 1000000, 10566 / 100000, 13957 / 100000, 49368 / 100000, 93827 / 100000,
      187561 / 100000, 280925 / 100000, 280923 / 100000, 372738 / 100000].getD i 0
  ParticleShortName := fun i => ["e", "mu", "pi", "K", "p", "d", "t", "he3", "alpha"].getD i ""

/-- A one-species table with charge value `-1` and mass `0.938`. -/
def signedTable : AliPID ℚ where
  kSPECIESC := 1
  ParticleCode := fun _ => 2212
  ParticleCharge := fun _ => -1
  ParticleMass := fun _ => 938 / 1000
  ParticleShortName := fun _ => "p"

/-- A response that is five sigma away in the TPC and four in the TOF. -/
def sampleResponse : AliPIDResponse ℚ where
  NumberOfSigmasTPC := fun _ _ => 5
  NumberOfSigmasTOF := fun _ _ => 4

/-- A run with the PID response attached; the gate accepts events of at most two tracks. -/
def sampleFramework : Framework ℚ (ℚ × ℚ × ℚ) where
  pidTable := sampleTable
  FindBin := fun x y z => (x, y, z)
  AcceptEvent := fun ev => decide (ev.tracks.length ≤ 2)
  GetPIDResponse := some sampleResponse
  kTOFout := 0x2000
  kTIME := 0x80000000
  rapidity := fun _ eta _ _ => eta

/-- The same run without the PID response. -/
def frameworkWithoutPID : Framework ℚ (ℚ × ℚ × ℚ) :=
  { sampleFramework with GetPIDResponse := none }

/-- The same run over the one-species table. -/
def signedFramework : Framework ℚ (ℚ × ℚ × ℚ) :=
  { sampleFramework with pidTable := signedTable }

/-- A primary proton of positive charge at `(y, phi, pt) = (0.1, 1, 1)`. -/
def primaryProton : AliAODMCParticle ℚ :=
  { IsPhysicalPrimary := true, GetPdgCode := 2212, Charge := 3, Y := 1 / 10, Phi := 1, Pt := 1 }

/-- A pion that is not a physical primary. -/
def secondaryPion : AliAODMCParticle ℚ :=
  { IsPhysicalPrimary := false, GetPdgCode := -211, Charge := -3, Y := 0, Phi := 2, Pt := 1 / 2 }

/-- A primary neutron: its code is in no species of the table. -/
def primaryNeutron : AliAODMCParticle ℚ :=
  { IsPhysicalPrimary := true, GetPdgCode := 2112, Charge := 0, Y := 0, Phi := 3, Pt := 1 }

/-- A track linked to the first Monte Carlo particle, with filter bit 8, both TOF status
flags and an integrated length of `350.1`. -/
def matchedTrack : AliAODTrack ℚ :=
  { GetID := 1, GetLabel := 0, Pt := 2, Eta := 1 / 2, Phi := 1,
    TestFilterBit := fun bits => (bits &&& 0x100) != 0,
    GetStatus := 0x80002000, GetIntegratedLength := 3501 / 10 }

/-- The same track with identifier zero. -/
def zeroIdTrack : AliAODTrack ℚ := { matchedTrack with GetID := 0 }

/-- The same track with a label beyond the Monte Carlo array. -/
def unlinkedTrack : AliAODTrack ℚ := { matchedTrack with GetLabel := -7 }

/-- The same track with an integrated length of exactly `350`. -/
def shortTrack : AliAODTrack ℚ := { matchedTrack with GetIntegratedLength := 350 }

/-- One primary positive proton, no reconstructed track. -/
def protonEvent : AliVEvent ℚ := { tracks := [], mcparticles := some [primaryProton] }

/-- Three Monte Carlo particles and two tracks, the second with identifier zero. -/
def mixedEvent : AliVEvent ℚ :=
  { tracks := [matchedTrack, zeroIdTrack],
    mcparticles := some [primaryProton, secondaryPion, primaryNeutron] }

/-- An accepted event without the Monte Carlo particle array. -/
def eventWithoutMC : AliVEvent ℚ := { tracks := [matchedTrack], mcparticles := none }

/-- An event of three tracks, which the sample gate rejects; it has no Monte Carlo
particle array. -/
def rejectedEvent : AliVEvent ℚ :=
  { tracks := [matchedTrack, matchedTrack, matchedTrack], mcparticles := none }

/-- The histograms right after `UserCreateOutputObjects` in the sample run. -/
def emptyHistograms : State (ℚ × ℚ × ℚ) := UserCreateOutputObjects (ℚ × ℚ × ℚ) sampleTable


/-! ## The species scan -/

theorem findSpecies_eq_some_iff {R : Type} (pidTable : AliPID R) (pdg : Int) (i : Nat) :
    findSpecies pidTable pdg = some i ↔
      i < pidTable.kSPECIESC ∧ pidTable.ParticleCode i = pdg ∧
        ∀ j, j < i → pidTable.ParticleCode j ≠ pdg := by
  unfold findSpecies
  rw [List.find?_range_eq_some]
  simp only [List.mem_range, beq_iff_eq, Bool.not_eq_true', beq_eq_false_iff_ne, ne_eq]
  constructor
  · rintro ⟨h1, h2, h3⟩
    exact ⟨h2, h1.symm, fun j hj e => h3 j hj e.symm⟩
  · rintro ⟨h1, h2, h3⟩
    exact ⟨h2.symm, h1, fun j hj e => h3 j hj e.symm⟩

theorem findSpecies_eq_none_iff {R : Type} (pidTable : AliPID R) (pdg : Int) :
    findSpecies pidTable pdg = none ↔ isCatalogCode pidTable pdg = false := by
  unfold findSpecies isCatalogCode
  rw [List.find?_range_eq_none, Bool.eq_false_iff, Ne, List.any_eq_true]
  simp only [List.mem_range, beq_iff_eq, Bool.not_eq_true', beq_eq_false_iff_ne, ne_eq,
    not_exists, not_and]
  constructor
  · intro h j hj e
    exact h j hj e.symm
  · intro h j hj e
    exact h j hj e.symm

theorem findSpecies_isSome_iff {R : Type} (pidTable : AliPID R) (pdg : Int) :
    (findSpecies pidTable pdg).isSome = isCatalogCode pidTable pdg := by
  cases h : findSpecies pidTable pdg with
  | none => simp [(findSpecies_eq_none_iff pidTable pdg).1 h]
  | some i =>
    cases h2 : isCatalogCode pidTable pdg with
    | true => rfl
    | false => rw [(findSpecies_eq_none_iff pidTable pdg).2 h2] at h; cases h

/-! ## The loop over the Monte Carlo particles -/

theorem truthStep_of_unrecognized {R B : Type} [DecidableEq B] (fw : Framework R B)
    (g : State B) (part : AliAODMCParticle R)
    (h : isRecognizedPrimary fw.pidTable part = false) : truthStep fw g part = g := by
  unfold truthStep
  cases hp : part.IsPhysicalPrimary with
  | false => simp
  | true =>
    simp only [isRecognizedPrimary, hp, Bool.true_and] at h
    rw [← findSpecies_eq_none_iff] at h
    simp [h]

theorem truthStep_of_recognized {R B : Type} [DecidableEq B] (fw : Framework R B)
    (g : State B) (part : AliAODMCParticle R) (iS : Nat)
    (hp : part.IsPhysicalPrimary = true)
    (hs : findSpecies fw.pidTable |part.GetPdgCode| = some iS) :
    truthStep fw g part
      = g.fillGenerated iS (chargeIndex part) (fw.FindBin part.Y part.Phi part.Pt) := by
  unfold truthStep
  simp [hp, hs]

theorem chargeIndex_lt_two {R : Type} (part : AliAODMCParticle R) : chargeIndex part < 2 := by
  unfold chargeIndex
  split <;> omega

theorem generatedEntries_fillGenerated {R B : Type} [DecidableEq B] (pidTable : AliPID R)
    (g : State B) (iS c : Nat) (bin : B) (hS : iS < pidTable.kSPECIESC) (hc : c < 2) :
    generatedEntries pidTable (g.fillGenerated iS c bin) = generatedEntries pidTable g + 1 := by
  unfold generatedEntries State.fillGenerated
  have key : ∀ s c', ((if s = iS ∧ c' = c then (g.fGeneratedYPhiPt s c').FillBin bin
        else g.fGeneratedYPhiPt s c')).fEntries
      = (g.fGeneratedYPhiPt s c').fEntries + if s = iS then (if c' = c then 1 else 0) else 0 := by
    intro s c'
    by_cases h1 : s = iS <;> by_cases h2 : c' = c <;> simp [h1, h2, TH3D.FillBin]
  simp only [key, Finset.sum_add_distrib]
  congr 1
  rw [Finset.sum_eq_single iS]
  · simp [Finset.sum_ite_eq', hc]
  · intro s _ hne
    simp [hne]
  · intro h
    exact absurd (Finset.mem_range.2 hS) h

theorem length_filter_cons_recognized {R : Type} (pidTable : AliPID R)
    (part : AliAODMCParticle R) (rest : List (AliAODMCParticle R)) :
    ((part :: rest).filter (isRecognizedPrimary pidTable)).length
      = (if isRecognizedPrimary pidTable part then 1 else 0)
        + (rest.filter (isRecognizedPrimary pidTable)).length := by
  rw [List.filter_cons]
  split <;> simp [Nat.add_comm]

theorem generatedEntries_truthStep {R B : Type} [DecidableEq B] (fw : Framework R B)
    (g : State B) (part : AliAODMCParticle R) :
    generatedEntries fw.pidTable (truthStep fw g part)
      = generatedEntries fw.pidTable g
        + if isRecognizedPrimary fw.pidTable part then 1 else 0 := by
  cases h : isRecognizedPrimary fw.pidTable part with
  | false => simp [truthStep_of_unrecognized fw g part h]
  | true =>
    simp only [isRecognizedPrimary, Bool.and_eq_true] at h
    obtain ⟨hp, hc⟩ := h
    rw [← findSpecies_isSome_iff, Option.isSome_iff_exists] at hc
    obtain ⟨iS, hs⟩ := hc
    rw [truthStep_of_recognized fw g part iS hp hs]
    have hlt := ((findSpecies_eq_some_iff _ _ _).1 hs).1
    simp [generatedEntries_fillGenerated fw.pidTable g iS _ _ hlt (chargeIndex_lt_two part)]

theorem generatedEntries_truthLoop {R B : Type} [DecidableEq B] (fw : Framework R B)
    (stack : List (AliAODMCParticle R)) (g : State B) :
    generatedEntries fw.pidTable (truthLoop fw g stack)
      = generatedEntries fw.pidTable g
        + (stack.filter (isRecognizedPrimary fw.pidTable)).length := by
  induction stack generalizing g with
  | nil => simp [truthLoop]
  | cons part rest ih =>
    have ih2 := ih (truthStep fw g part)
    unfold truthLoop at ih2 ⊢
    rw [List.foldl_cons, ih2, generatedEntries_truthStep, length_filter_cons_recognized]
    omega

theorem truthStep_reconstructed {R B : Type} [DecidableEq B] (fw : Framework R B)
    (g : State B) (part : AliAODMCParticle R) :
    (truthStep fw g part).fReconstructedYPhiPt = g.fReconstructedYPhiPt := by
  unfold truthStep
  split
  · rfl
  · dsimp only
    split <;> rfl

theorem truthLoop_reconstructed {R B : Type} [DecidableEq B] (fw : Framework R B)
    (stack : List (AliAODMCParticle R)) (g : State B) :
    (truthLoop fw g stack).fReconstructedYPhiPt = g.fReconstructedYPhiPt := by
  induction stack generalizing g with
  | nil => rfl
  | cons part rest ih =>
    have ih2 := ih (truthStep fw g part)
    unfold truthLoop at ih2 ⊢
    rw [List.foldl_cons, ih2, truthStep_reconstructed]

/-! ## The loop over the reconstructed tracks -/

theorem fillCuts_reconstructed {B : Type} [DecidableEq B] (st : State B) (iS c : Nat)
    (cf : List Bool) (bin : B) (s c' k : Nat) :
    (fillCuts st iS c cf bin).fReconstructedYPhiPt s c' k =
      if s = iS ∧ c' = c ∧ k < fNcuts ∧ cf.getD k false = true
      then (st.fReconstructedYPhiPt s c' k).FillBin bin
      else st.fReconstructedYPhiPt s c' k := by
  have hr : List.range fNcuts = [0, 1, 2, 3, 4] := by decide
  unfold fillCuts
  rw [hr]
  simp only [List.foldl, fNcuts]
  by_cases hs : s = iS ∧ c' = c
  · obtain ⟨rfl, rfl⟩ := hs
    by_cases hk : 5 ≤ k
    · have e0 : k ≠ 0 := by omega
      have e1 : k ≠ 1 := by omega
      have e2 : k ≠ 2 := by omega
      have e3 : k ≠ 3 := by omega
      have e4 : k ≠ 4 := by omega
      have e5 : ¬ k < 5 := by omega
      cases h0 : cf.getD 0 false <;> cases h1 : cf.getD 1 false <;>
      cases h2 : cf.getD 2 false <;> cases h3 : cf.getD 3 false <;>
      cases h4 : cf.getD 4 false <;>
      simp [State.fillReconstructed, e0, e1, e2, e3, e4, e5]
    · have hk' : k < 5 := by omega
      interval_cases k <;>
      cases h0 : cf.getD 0 false <;> cases h1 : cf.getD 1 false <;>
      cases h2 : cf.getD 2 false <;> cases h3 : cf.getD 3 false <;>
      cases h4 : cf.getD 4 false <;>
      simp [State.fillReconstructed, h0, h1, h2, h3, h4]
  · have hs' : ¬ (s = iS ∧ c' = c ∧ k < 5 ∧ cf.getD k false = true) :=
      fun h => hs ⟨h.1, h.2.1⟩
    have hs0 : ∀ j, ¬ (s = iS ∧ c' = c ∧ k = j) := fun j h => hs ⟨h.1, h.2.1⟩
    rw [if_neg hs']
    cases h0 : cf.getD 0 false <;> cases h1 : cf.getD 1 false <;>
      cases h2 : cf.getD 2 false <;> cases h3 : cf.getD 3 false <;>
      cases h4 : cf.getD 4 false <;>
      simp [State.fillReconstructed, hs0]

theorem fillCuts_generated {B : Type} [DecidableEq B] (st : State B) (iS c : Nat)
    (cf : List Bool) (bin : B) :
    (fillCuts st iS c cf bin).fGeneratedYPhiPt = st.fGeneratedYPhiPt := by
  have hr : List.range fNcuts = [0, 1, 2, 3, 4] := by decide
  unfold fillCuts
  rw [hr]
  simp only [List.foldl]
  cases h0 : cf.getD 0 false <;> cases h1 : cf.getD 1 false <;>
      cases h2 : cf.getD 2 false <;> cases h3 : cf.getD 3 false <;>
      cases h4 : cf.getD 4 false <;>
      simp [State.fillReconstructed]

theorem isRecognizedPrimary_iff {R : Type} (pidTable : AliPID R) (part : AliAODMCParticle R) :
    isRecognizedPrimary pidTable part = true ↔
      part.IsPhysicalPrimary = true ∧
        ∃ j, j < pidTable.kSPECIESC ∧ pidTable.ParticleCode j = |part.GetPdgCode| := by
  simp [isRecognizedPrimary, isCatalogCode]

theorem trackStep_of_failed {R B : Type} [LinearOrderedField R] [DecidableEq B]
    (fw : Framework R B) (pid : AliPIDResponse R) (stack : List (AliAODMCParticle R))
    (g : State B) (track : AliAODTrack R)
    (h : passesTrackChecks fw.pidTable stack track = false) :
    trackStep fw pid stack g track = g := by
  unfold trackStep
  by_cases hid : track.GetID ≤ 0
  · simp [hid]
  · rw [if_neg hid]
    have hid2 : 0 < track.GetID := by omega
    simp only [passesTrackChecks, hid2, decide_True, Bool.true_and] at h
    cases hl : stack[track.GetLabel.natAbs]? with
    | none => rfl
    | some part =>
      rw [hl] at h
      simp only [isRecognizedPrimary] at h
      cases hp : part.IsPhysicalPrimary with
      | false => simp [hp]
      | true =>
        simp only [hp, Bool.true_and] at h
        rw [← findSpecies_eq_none_iff] at h
        simp [h]

theorem trackStep_of_passed {R B : Type} [LinearOrderedField R] [DecidableEq B]
    (fw : Framework R B) (pid : AliPIDResponse R) (stack : List (AliAODMCParticle R))
    (g : State B) (track : AliAODTrack R) (part : AliAODMCParticle R) (iS : Nat)
    (hid : 0 < track.GetID) (hl : stack[track.GetLabel.natAbs]? = some part)
    (hp : part.IsPhysicalPrimary = true)
    (hs : findSpecies fw.pidTable |part.GetPdgCode| = some iS) :
    trackStep fw pid stack g track
      = fillCuts g iS (chargeIndex part) (cuts fw pid track iS)
          (fw.FindBin
            (fw.rapidity (track.Pt * fw.pidTable.ParticleCharge iS) track.Eta track.Phi
              (fw.pidTable.ParticleMass iS))
            track.Phi track.Pt) := by
  unfold trackStep
  have hid2 : ¬ track.GetID ≤ 0 := by omega
  simp [hid2, hl, hp, hs]

theorem trackStep_generated {R B : Type} [LinearOrderedField R] [DecidableEq B]
    (fw : Framework R B) (pid : AliPIDResponse R) (stack : List (AliAODMCParticle R))
    (g : State B) (track : AliAODTrack R) :
    (trackStep fw pid stack g track).fGeneratedYPhiPt = g.fGeneratedYPhiPt := by
  unfold trackStep
  split
  · rfl
  · split
    · rfl
    · split
      · rfl
      · dsimp only
        split
        · rfl
        · exact fillCuts_generated _ _ _ _ _

theorem trackLoop_generated {R B : Type} [LinearOrderedField R] [DecidableEq B]
    (fw : Framework R B) (pid : AliPIDResponse R) (stack : List (AliAODMCParticle R))
    (tracks : List (AliAODTrack R)) (g : State B) :
    (trackLoop fw pid stack g tracks).fGeneratedYPhiPt = g.fGeneratedYPhiPt := by
  induction tracks generalizing g with
  | nil => rfl
  | cons track rest ih =>
    have ih2 := ih (trackStep fw pid stack g track)
    unfold trackLoop at ih2 ⊢
    rw [List.foldl_cons, ih2, trackStep_generated]

theorem trackLoop_filter {R B : Type} [LinearOrderedField R] [DecidableEq B]
    (fw : Framework R B) (pid : AliPIDResponse R) (stack : List (AliAODMCParticle R))
    (tracks : List (AliAODTrack R)) (g : State B) :
    trackLoop fw pid stack g (tracks.filter (passesTrackChecks fw.pidTable stack))
      = trackLoop fw pid stack g tracks := by
  induction tracks generalizing g with
  | nil => rfl
  | cons track rest ih =>
    cases h : passesTrackChecks fw.pidTable stack track with
    | false =>
      rw [List.filter_cons_of_neg (by simp [h])]
      have ih2 := ih g
      unfold trackLoop at ih2 ⊢
      rw [List.foldl_cons, trackStep_of_failed fw pid stack g track h, ih2]
    | true =>
      rw [List.filter_cons_of_pos h]
      have ih2 := ih (trackStep fw pid stack g track)
      unfold trackLoop at ih2 ⊢
      rw [List.foldl_cons, List.foldl_cons, ih2]

theorem cuts_getD {R B : Type} [LinearOrderedField R] (fw : Framework R B)
    (pid : AliPIDResponse R) (track : AliAODTrack R) (iS : Nat) :
    (cuts fw pid track iS).getD 0 false = true ∧
    (cuts fw pid track iS).getD 1 false = track.TestFilterBit (BIT 8) ∧
    (cuts fw pid track iS).getD 2 false
      = (track.TestFilterBit (BIT 8) && decide (|pid.NumberOfSigmasTPC track iS| < 3)) ∧
    (cuts fw pid track iS).getD 3 false = (track.TestFilterBit (BIT 8) && HasTOF fw track) ∧
    (cuts fw pid track iS).getD 4 false
      = (track.TestFilterBit (BIT 8) && decide (|pid.NumberOfSigmasTOF track iS| < 3)) := by
  simp [cuts]

theorem reconstructedEntries_fillCuts {R B : Type} [DecidableEq B] (pidTable : AliPID R)
    (g : State B) (iS c : Nat) (cf : List Bool) (bin : B) (hS : iS < pidTable.kSPECIESC)
    (hc : c < 2) :
    reconstructedEntries pidTable (fillCuts g iS c cf bin)
      = reconstructedEntries pidTable g
        + ∑ k ∈ Finset.range fNcuts, if cf.getD k false = true then 1 else 0 := by
  unfold reconstructedEntries
  have key : ∀ s c' k, k ∈ Finset.range fNcuts →
      ((fillCuts g iS c cf bin).fReconstructedYPhiPt s c' k).fEntries
      = (g.fReconstructedYPhiPt s c' k).fEntries
        + if s = iS then (if c' = c then (if cf.getD k false = true then 1 else 0) else 0)
          else 0 := by
    intro s c' k hk
    rw [fillCuts_reconstructed]
    have hk' := Finset.mem_range.1 hk
    by_cases h1 : s = iS <;> by_cases h2 : c' = c <;>
      by_cases h3 : cf.getD k false = true <;>
      simp [-List.getD_eq_getElem?_getD, h1, h2, h3, hk', TH3D.FillBin]
  have key2 : ∀ s c', (∑ k ∈ Finset.range fNcuts,
        ((fillCuts g iS c cf bin).fReconstructedYPhiPt s c' k).fEntries)
      = (∑ k ∈ Finset.range fNcuts, (g.fReconstructedYPhiPt s c' k).fEntries)
        + if s = iS then (if c' = c then
            (∑ k ∈ Finset.range fNcuts, if cf.getD k false = true then 1 else 0) else 0)
          else 0 := by
    intro s c'
    rw [Finset.sum_congr rfl (key s c'), Finset.sum_add_distrib]
    by_cases h1 : s = iS <;> by_cases h2 : c' = c <;> simp [h1, h2]
  simp only [key2, Finset.sum_add_distrib]
  congr 1
  rw [Finset.sum_eq_single iS]
  · simp [Finset.sum_ite_eq', hc]
  · intro s _ hne
    simp [hne]
  · intro h
    exact absurd (Finset.mem_range.2 hS) h

theorem sum_range_cuts (cf : List Bool) :
    (∑ k ∈ Finset.range fNcuts, if cf.getD k false = true then 1 else 0)
      = (if cf.getD 0 false = true then 1 else 0) + (if cf.getD 1 false = true then 1 else 0)
        + (if cf.getD 2 false = true then 1 else 0) + (if cf.getD 3 false = true then 1 else 0)
        + (if cf.getD 4 false = true then 1 else 0) := by
  simp only [fNcuts, Finset.sum_range_succ, Finset.sum_range_zero, zero_add]

/-! ## The cut ordering is an invariant -/

theorem trackStep_eq_or {R B : Type} [LinearOrderedField R] [DecidableEq B]
    (fw : Framework R B) (pid : AliPIDResponse R) (stack : List (AliAODMCParticle R))
    (g : State B) (track : AliAODTrack R) :
    trackStep fw pid stack g track = g ∨
      ∃ iS c bin, trackStep fw pid stack g track = fillCuts g iS c (cuts fw pid track iS) bin := by
  unfold trackStep
  split
  · exact Or.inl rfl
  · split
    · exact Or.inl rfl
    · split
      · exact Or.inl rfl
      · dsimp only
        split
        · exact Or.inl rfl
        · exact Or.inr ⟨_, _, _, rfl⟩

theorem cutsOrdered_fillCuts {R B : Type} [LinearOrderedField R] [DecidableEq B]
    (fw : Framework R B) (pid : AliPIDResponse R) (track : AliAODTrack R)
    (g : State B) (iS c : Nat) (bin : B) (s c' : Nat) (b : B) (h : cutsOrdered g s c' b) :
    cutsOrdered (fillCuts g iS c (cuts fw pid track iS) bin) s c' b := by
  obtain ⟨e0, e1, e2, e3, e4⟩ := cuts_getD fw pid track iS
  unfold cutsOrdered at h ⊢
  simp only [fillCuts_reconstructed, e0, e1, e2, e3, e4, fNcuts]
  by_cases hs : s = iS ∧ c' = c
  · obtain ⟨rfl, rfl⟩ := hs
    by_cases hb : b = bin
    · subst hb
      cases track.TestFilterBit (BIT 8) <;>
        cases decide (|pid.NumberOfSigmasTPC track s| < 3) <;>
        cases HasTOF fw track <;>
        cases decide (|pid.NumberOfSigmasTOF track s| < 3) <;>
        simp [TH3D.FillBin] <;> omega
    · cases track.TestFilterBit (BIT 8) <;>
        cases decide (|pid.NumberOfSigmasTPC track s| < 3) <;>
        cases HasTOF fw track <;>
        cases decide (|pid.NumberOfSigmasTOF track s| < 3) <;>
        simp [TH3D.FillBin, hb] <;> omega
  · have hs' : ∀ (p : Prop), ¬ (s = iS ∧ c' = c ∧ p) := fun p h => hs ⟨h.1, h.2.1⟩
    simp only [hs', if_false]
    exact h

theorem cutsOrdered_trackStep {R B : Type} [LinearOrderedField R] [DecidableEq B]
    (fw : Framework R B) (pid : AliPIDResponse R) (stack : List (AliAODMCParticle R))
    (g : State B) (track : AliAODTrack R) (h : ∀ s c b, cutsOrdered g s c b) :
    ∀ s c b, cutsOrdered (trackStep fw pid stack g track) s c b := by
  intro s c b
  rcases trackStep_eq_or fw pid stack g track with e | ⟨iS, c', bin, e⟩
  · rw [e]
    exact h s c b
  · rw [e]
    exact cutsOrdered_fillCuts fw pid track g iS c' bin s c b (h s c b)

theorem cutsOrdered_trackLoop {R B : Type} [LinearOrderedField R] [DecidableEq B]
    (fw : Framework R B) (pid : AliPIDResponse R) (stack : List (AliAODMCParticle R))
    (tracks : List (AliAODTrack R)) (g : State B) (h : ∀ s c b, cutsOrdered g s c b) :
    ∀ s c b, cutsOrdered (trackLoop fw pid stack g tracks) s c b := by
  induction tracks generalizing g with
  | nil => exact h
  | cons track rest ih =>
    have ih2 := ih (trackStep fw pid stack g track) (cutsOrdered_trackStep fw pid stack g track h)
    unfold trackLoop at ih2 ⊢
    rw [List.foldl_cons]
    exact ih2

theorem cutsOrdered_truthLoop {R B : Type} [DecidableEq B] (fw : Framework R B)
    (stack : List (AliAODMCParticle R)) (g : State B) (h : ∀ s c b, cutsOrdered g s c b) :
    ∀ s c b, cutsOrdered (truthLoop fw g stack) s c b := by
  intro s c b
  have e := truthLoop_reconstructed fw stack g
  unfold cutsOrdered
  rw [e]
  exact h s c b

theorem cutsOrdered_UserExec {R B : Type} [LinearOrderedField R] [DecidableEq B]
    (fw : Framework R B) (g : State B) (ev : AliVEvent R) (h : ∀ s c b, cutsOrdered g s c b) :
    ∀ s c b, cutsOrdered (histogramsOf (UserExec fw g ev)) s c b := by
  unfold UserExec
  split
  · exact h
  · split
    · exact h
    · split
      · exact h
      · exact cutsOrdered_trackLoop fw _ _ _ _ (cutsOrdered_truthLoop fw _ g h)

theorem cutsOrdered_processEvents {R B : Type} [LinearOrderedField R] [DecidableEq B]
    (fw : Framework R B) (evs : List (AliVEvent R)) (g : State B)
    (h : ∀ s c b, cutsOrdered g s c b) :
    ∀ s c b, cutsOrdered (histogramsOf (processEvents fw g evs)) s c b := by
  induction evs generalizing g with
  | nil => exact h
  | cons ev rest ih =>
    have h1 := cutsOrdered_UserExec fw g ev h
    unfold processEvents
    cases hu : UserExec fw g ev with
    | ok st1 =>
      rw [hu] at h1
      exact ih st1 h1
    | error e =>
      rw [hu] at h1
      exact h1

theorem cutsOrdered_UserCreateOutputObjects {R : Type} (B : Type) (pidTable : AliPID R) :
    ∀ s c b, cutsOrdered (UserCreateOutputObjects B pidTable) s c b := by
  intro s c b
  simp [cutsOrdered, UserCreateOutputObjects]

/-! ## Rejected events -/

/-- C1: when the event-quality gate rejects the event, `UserExec` returns the histograms
it was given: no bin of a generated or reconstructed histogram changes. -/
theorem rejected_event_leaves_histograms {R B : Type} [LinearOrderedField R] [DecidableEq B]
    (fw : Framework R B) (st : State B) (ev : AliVEvent R)
    (hrej : fw.AcceptEvent ev = false) :
    UserExec fw st ev = Except.ok st ∧
      (∀ iS c b, ((histogramsOf (UserExec fw st ev)).fGeneratedYPhiPt iS c).GetBinContent b
        = (st.fGeneratedYPhiPt iS c).GetBinContent b) ∧
      (∀ iS c k b,
        ((histogramsOf (UserExec fw st ev)).fReconstructedYPhiPt iS c k).GetBinContent b
          = (st.fReconstructedYPhiPt iS c k).GetBinContent b) := by
  have e : UserExec fw st ev = Except.ok st := by
    unfold UserExec
    rw [if_pos hrej]
  rw [e]
  exact ⟨rfl, fun _ _ _ => rfl, fun _ _ _ _ => rfl⟩

/-- C1 at a rejected event of the sample run. -/
theorem rejected_event_leaves_histograms_witness :
    sampleFramework.AcceptEvent rejectedEvent = false ∧
      UserExec sampleFramework emptyHistograms rejectedEvent = Except.ok emptyHistograms :=
  ⟨by decide,
    (rejected_event_leaves_histograms sampleFramework emptyHistograms rejectedEvent
      (by decide)).1⟩

/-! ## The generated histograms -/

/-- C2: in an accepted event (PID response and Monte Carlo array present) the generated
histograms after `UserExec` are those the loop over the Monte Carlo particles leaves.
A physical primary whose absolute particle code is carried by a species fills, once, the
histogram of the first such species and of its charge index, at its `(Y, Phi, Pt)`, and
touches nothing else; any other particle changes nothing; the entries summed over the
generated histograms grow by the number of recognized physical primaries. -/
theorem truth_pass_fills_generated {R B : Type} [LinearOrderedField R] [DecidableEq B]
    (fw : Framework R B) (st : State B) (ev : AliVEvent R) (pid : AliPIDResponse R)
    (stack : List (AliAODMCParticle R))
    (hacc : fw.AcceptEvent ev = true) (hpid : fw.GetPIDResponse = some pid)
    (hstack : ev.mcparticles = some stack) :
    (∃ st', UserExec fw st ev = Except.ok st' ∧
      st'.fGeneratedYPhiPt = (truthLoop fw st stack).fGeneratedYPhiPt ∧
      generatedEntries fw.pidTable st'
        = generatedEntries fw.pidTable st
          + (stack.filter (isRecognizedPrimary fw.pidTable)).length) ∧
    (∀ (g : State B) (part : AliAODMCParticle R) (iS : Nat),
      part.IsPhysicalPrimary = true →
      iS < fw.pidTable.kSPECIESC →
      fw.pidTable.ParticleCode iS = |part.GetPdgCode| →
      (∀ j, j < iS → fw.pidTable.ParticleCode j ≠ |part.GetPdgCode|) →
      (truthStep fw g part).fGeneratedYPhiPt iS (if part.Charge > 0 then 1 else 0)
          = (g.fGeneratedYPhiPt iS (if part.Charge > 0 then 1 else 0)).Fill fw.FindBin
              part.Y part.Phi part.Pt ∧
        (∀ s c, ¬ (s = iS ∧ c = if part.Charge > 0 then 1 else 0) →
          (truthStep fw g part).fGeneratedYPhiPt s c = g.fGeneratedYPhiPt s c) ∧
        (truthStep fw g part).fReconstructedYPhiPt = g.fReconstructedYPhiPt) ∧
    (∀ (g : State B) (part : AliAODMCParticle R),
      (part.IsPhysicalPrimary = false ∨
        ∀ j, j < fw.pidTable.kSPECIESC → fw.pidTable.ParticleCode j ≠ |part.GetPdgCode|) →
      truthStep fw g part = g) := by
  refine ⟨?_, ?_, ?_⟩
  · refine ⟨trackLoop fw pid stack (truthLoop fw st stack) ev.tracks, ?_, ?_, ?_⟩
    · unfold UserExec
      simp [hacc, hpid, hstack]
    · exact trackLoop_generated fw pid stack ev.tracks _
    · have e := trackLoop_generated fw pid stack ev.tracks (truthLoop fw st stack)
      have e2 : generatedEntries fw.pidTable
            (trackLoop fw pid stack (truthLoop fw st stack) ev.tracks)
          = generatedEntries fw.pidTable (truthLoop fw st stack) := by
        unfold generatedEntries
        rw [e]
      rw [e2, generatedEntries_truthLoop]
  · intro g part iS hp hlt hcode hfirst
    have hs : findSpecies fw.pidTable |part.GetPdgCode| = some iS :=
      (findSpecies_eq_some_iff _ _ _).2 ⟨hlt, hcode, hfirst⟩
    rw [truthStep_of_recognized fw g part iS hp hs]
    refine ⟨?_, ?_, rfl⟩
    · simp [State.fillGenerated, chargeIndex, TH3D.Fill]
    · intro s c hne
      simp only [State.fillGenerated, chargeIndex]
      rw [if_neg hne]
  · intro g part h
    apply truthStep_of_unrecognized
    rcases h with h | h
    · simp [isRecognizedPrimary, h]
    · cases hr : isRecognizedPrimary fw.pidTable part with
      | false => rfl
      | true =>
        obtain ⟨_, j, hj, hc⟩ := (isRecognizedPrimary_iff _ _).1 hr
        exact absurd hc (h j hj)

/-- C2 at the sample event with a primary proton, a secondary pion and a primary neutron:
one recognized physical primary, one more generated entry. -/
theorem truth_pass_fills_generated_witness :
    sampleFramework.AcceptEvent mixedEvent = true ∧
    sampleFramework.GetPIDResponse = some sampleResponse ∧
    mixedEvent.mcparticles = some [primaryProton, secondaryPion, primaryNeutron] ∧
    ∃ st', UserExec sampleFramework emptyHistograms mixedEvent = Except.ok st' ∧
      st'.fGeneratedYPhiPt
        = (truthLoop sampleFramework emptyHistograms
            [primaryProton, secondaryPion, primaryNeutron]).fGeneratedYPhiPt ∧
      generatedEntries sampleTable st'
        = generatedEntries sampleTable emptyHistograms
          + ([primaryProton, secondaryPion, primaryNeutron].filter
              (isRecognizedPrimary sampleTable)).length :=
  ⟨by decide, rfl, rfl,
    (truth_pass_fills_generated sampleFramework emptyHistograms mixedEvent sampleResponse
      [primaryProton, secondaryPion, primaryNeutron] (by decide) rfl rfl).1⟩

/-! ## The charge label of the generated histograms -/

/-- C3 fails on the code: a physical primary of strictly positive charge gets charge index
one, and the histogram of index one was created with the label `fPosNeg[1]`, which is
"neg".  In the sample run, the event made of one primary positive proton and no track
leaves its single entry, at `(0.1, 1, 1)`, in `Gen_p_neg`, and `Gen_p_pos` stays empty. -/
theorem positive_primary_fills_neg_labelled :
    (∀ (pidTable : AliPID ℚ) (part : AliAODMCParticle ℚ) (iS : Nat), 0 < part.Charge →
      ((UserCreateOutputObjects (ℚ × ℚ × ℚ) pidTable).fGeneratedYPhiPt iS
          (chargeIndex part)).fName
        = "Gen_" ++ pidTable.ParticleShortName iS ++ "_neg") ∧
    ∃ st', UserExec sampleFramework emptyHistograms protonEvent = Except.ok st' ∧
      (st'.fGeneratedYPhiPt 4 1).fName = "Gen_p_neg" ∧
      (st'.fGeneratedYPhiPt 4 1).fEntries = 1 ∧
      (st'.fGeneratedYPhiPt 4 1).GetBinContent (1 / 10, 1, 1) = 1 ∧
      (st'.fGeneratedYPhiPt 4 0).fName = "Gen_p_pos" ∧
      (st'.fGeneratedYPhiPt 4 0).fEntries = 0 ∧
      (∀ iS c k, (st'.fReconstructedYPhiPt iS c k).fEntries = 0) := by
  refine ⟨?_, ?_⟩
  · intro pidTable part iS h
    have e : "_" ++ "neg" = "_neg" := by decide
    simp [UserCreateOutputObjects, chargeIndex, h, fPosNeg, String.append_assoc, e]
  · have hs : findSpecies sampleFramework.pidTable |primaryProton.GetPdgCode| = some 4 := by
      decide
    refine ⟨truthStep sampleFramework emptyHistograms primaryProton, rfl, ?_⟩
    rw [truthStep_of_recognized sampleFramework emptyHistograms primaryProton 4 rfl hs]
    refine ⟨by decide, by decide, ?_, by decide, by decide, fun _ _ _ => rfl⟩
    simp [State.fillGenerated, chargeIndex, primaryProton, TH3D.FillBin, sampleFramework,
      emptyHistograms, UserCreateOutputObjects]

/-! ## The reconstructed histograms -/

theorem count_true_cuts (a b c d e : Bool) :
    (if [a, b, c, d, e].getD 0 false = true then 1 else 0)
      + (if [a, b, c, d, e].getD 1 false = true then 1 else 0)
      + (if [a, b, c, d, e].getD 2 false = true then 1 else 0)
      + (if [a, b, c, d, e].getD 3 false = true then 1 else 0)
      + (if [a, b, c, d, e].getD 4 false = true then 1 else 0)
      = [a, b, c, d, e].count true := by
  cases a <;> cases b <;> cases c <;> cases d <;> cases e <;> decide

theorem count_true_cuts_bounds (b c d e : Bool) :
    1 ≤ [true, b, c, d, e].count true ∧ [true, b, c, d, e].count true ≤ 5 := by
  cases b <;> cases c <;> cases d <;> cases e <;> decide

/-- C4: a track with positive identifier whose label resolves to a physical primary of a
recognized species adds one entry to the reconstructed histogram of cut `k`, for its
species and charge index, exactly when the `k`-th of the five predicates
`true, FB8, FB8 and TPCpid, FB8 and hasTOF, FB8 and TOFpid` holds, and touches no other
histogram; the entries summed over the reconstructed histograms grow by the number of
true predicates, which lies between one and five, the cut-0 histogram being always
filled. -/
theorem valid_track_fills_one_histogram_per_true_cut {R B : Type} [LinearOrderedField R]
    [DecidableEq B] (fw : Framework R B) (pid : AliPIDResponse R)
    (stack : List (AliAODMCParticle R)) (st : State B) (track : AliAODTrack R)
    (part : AliAODMCParticle R) (iS : Nat)
    (hid : 0 < track.GetID) (hl : stack[track.GetLabel.natAbs]? = some part)
    (hp : part.IsPhysicalPrimary = true) (hlt : iS < fw.pidTable.kSPECIESC)
    (hcode : fw.pidTable.ParticleCode iS = |part.GetPdgCode|)
    (hfirst : ∀ j, j < iS → fw.pidTable.ParticleCode j ≠ |part.GetPdgCode|) :
    let FB8 : Bool := track.TestFilterBit (BIT 8)
    let flags : List Bool :=
      [true, FB8, FB8 && decide (|pid.NumberOfSigmasTPC track iS| < 3),
        FB8 && HasTOF fw track, FB8 && decide (|pid.NumberOfSigmasTOF track iS| < 3)]
    let c : Nat := if part.Charge > 0 then 1 else 0
    let st' : State B := trackStep fw pid stack st track
    (∀ k, k < 5 →
      (st'.fReconstructedYPhiPt iS c k).fEntries
        = (st.fReconstructedYPhiPt iS c k).fEntries
          + if flags.getD k false = true then 1 else 0) ∧
    (∀ s c' k, ¬ (s = iS ∧ c' = c ∧ k < 5) →
      st'.fReconstructedYPhiPt s c' k = st.fReconstructedYPhiPt s c' k) ∧
    reconstructedEntries fw.pidTable st'
      = reconstructedEntries fw.pidTable st + flags.count true ∧
    (st'.fReconstructedYPhiPt iS c 0).fEntries
      = (st.fReconstructedYPhiPt iS c 0).fEntries + 1 ∧
    1 ≤ flags.count true ∧ flags.count true ≤ 5 ∧
    st'.fGeneratedYPhiPt = st.fGeneratedYPhiPt := by
  intro FB8 flags c st'
  have hs : findSpecies fw.pidTable |part.GetPdgCode| = some iS :=
    (findSpecies_eq_some_iff _ _ _).2 ⟨hlt, hcode, hfirst⟩
  have hst : st' = fillCuts st iS c flags
      (fw.FindBin
        (fw.rapidity (track.Pt * fw.pidTable.ParticleCharge iS) track.Eta track.Phi
          (fw.pidTable.ParticleMass iS))
        track.Phi track.Pt) :=
    trackStep_of_passed fw pid stack st track part iS hid hl hp hs
  have hc : c < 2 := chargeIndex_lt_two part
  refine ⟨?_, ?_, ?_, ?_, (count_true_cuts_bounds _ _ _ _).1,
    (count_true_cuts_bounds _ _ _ _).2, ?_⟩
  · intro k hk
    rw [hst, fillCuts_reconstructed]
    by_cases hf : flags.getD k false = true
    · rw [if_pos ⟨rfl, rfl, hk, hf⟩, if_pos hf]
      rfl
    · rw [if_neg (fun h => hf h.2.2.2), if_neg hf]
      rfl
  · intro s c' k hne
    rw [hst, fillCuts_reconstructed]
    rw [if_neg (fun h => hne ⟨h.1, h.2.1, h.2.2.1⟩)]
  · rw [hst, reconstructedEntries_fillCuts fw.pidTable st iS c flags _ hlt hc, sum_range_cuts]
    rw [count_true_cuts]
  · rw [hst, fillCuts_reconstructed]
    rw [if_pos ⟨rfl, rfl, by decide, rfl⟩]
    rfl
  · rw [hst]
    exact fillCuts_generated _ _ _ _ _

theorem sample_cuts :
    cuts sampleFramework sampleResponse matchedTrack 4 = [true, true, false, true, false] := by
  have h1 : matchedTrack.TestFilterBit (BIT 8) = true := by decide
  have h2 : HasTOF sampleFramework matchedTrack = true := by
    have a : (matchedTrack.GetStatus &&& sampleFramework.kTOFout) = 0x2000 := by decide
    have b : (matchedTrack.GetStatus &&& sampleFramework.kTIME) = 0x80000000 := by decide
    simp only [HasTOF, a, b]
    norm_num [matchedTrack]
  simp only [cuts, h1, h2]
  norm_num [sampleResponse]

/-- C4 at the sample track: filter bit 8 and TOF prolongation hold, both PID predicates
fail, so three reconstructed histograms of the positive-index proton gain an entry. -/
theorem valid_track_fills_one_histogram_per_true_cut_witness :
    (0 < matchedTrack.GetID ∧ [primaryProton][matchedTrack.GetLabel.natAbs]? = some primaryProton
      ∧ primaryProton.IsPhysicalPrimary = true ∧ 4 < sampleFramework.pidTable.kSPECIESC
      ∧ sampleFramework.pidTable.ParticleCode 4 = |primaryProton.GetPdgCode|
      ∧ ∀ j, j < 4 → sampleFramework.pidTable.ParticleCode j ≠ |primaryProton.GetPdgCode|) ∧
    reconstructedEntries sampleTable
        (trackStep sampleFramework sampleResponse [primaryProton] emptyHistograms matchedTrack)
      = reconstructedEntries sampleTable emptyHistograms
        + (cuts sampleFramework sampleResponse matchedTrack 4).count true ∧
    (cuts sampleFramework sampleResponse matchedTrack 4).count true = 3 :=
  ⟨⟨by decide, rfl, rfl, by decide, by decide, by decide⟩,
    (valid_track_fills_one_histogram_per_true_cut sampleFramework sampleResponse
      [primaryProton] emptyHistograms matchedTrack primaryProton 4 (by decide) rfl
      rfl (by decide) (by decide) (by decide)).2.2.1,
    by rw [sample_cuts]; decide⟩

/-! ## Dependence between the cut indices -/

theorem cut3_entry_gives_cut1_entry {R B : Type} [LinearOrderedField R] [DecidableEq B]
    (fw : Framework R B) (pid : AliPIDResponse R) (stack : List (AliAODMCParticle R))
    (st : State B) (track : AliAODTrack R) (iS c : Nat)
    (h3 : ((trackStep fw pid stack st track).fReconstructedYPhiPt iS c 3).fEntries
      = (st.fReconstructedYPhiPt iS c 3).fEntries + 1) :
    ((trackStep fw pid stack st track).fReconstructedYPhiPt iS c 1).fEntries
      = (st.fReconstructedYPhiPt iS c 1).fEntries + 1 := by
  rcases trackStep_eq_or fw pid stack st track with e | ⟨iS', c', bin, e⟩
  · rw [e] at h3
    omega
  · obtain ⟨_, e1, _, e3, _⟩ := cuts_getD fw pid track iS'
    rw [e, fillCuts_reconstructed] at h3
    rw [e, fillCuts_reconstructed]
    by_cases hs : iS = iS' ∧ c = c'
    · obtain ⟨rfl, rfl⟩ := hs
      rw [e3] at h3
      rw [e1]
      cases hfb : track.TestFilterBit (BIT 8) with
      | false =>
        rw [hfb] at h3
        simp at h3
      | true => simp [fNcuts, TH3D.FillBin]
    · rw [if_neg (fun h => hs ⟨h.1, h.2.1⟩)] at h3
      omega

/-- C5 as stated fails: no track, in any run over rational coordinates, adds an entry to
the cut-3 histogram of some species and charge index while leaving the cut-1 histogram of
the same species and charge index without a new entry. -/
theorem no_track_fills_cut3_without_cut1 :
    ¬ ∃ (fw : Framework ℚ (ℚ × ℚ × ℚ)) (pid : AliPIDResponse ℚ)
        (stack : List (AliAODMCParticle ℚ)) (st : State (ℚ × ℚ × ℚ)) (track : AliAODTrack ℚ)
        (iS c : Nat),
      passesTrackChecks fw.pidTable stack track = true ∧
      ((trackStep fw pid stack st track).fReconstructedYPhiPt iS c 0).fEntries
        = (st.fReconstructedYPhiPt iS c 0).fEntries + 1 ∧
      ((trackStep fw pid stack st track).fReconstructedYPhiPt iS c 3).fEntries
        = (st.fReconstructedYPhiPt iS c 3).fEntries + 1 ∧
      ((trackStep fw pid stack st track).fReconstructedYPhiPt iS c 1).fEntries
        = (st.fReconstructedYPhiPt iS c 1).fEntries ∧
      ((trackStep fw pid stack st track).fReconstructedYPhiPt iS c 2).fEntries
        = (st.fReconstructedYPhiPt iS c 2).fEntries := by
  rintro ⟨fw, pid, stack, st, track, iS, c, _, _, h3, h1, _⟩
  have h := cut3_entry_gives_cut1_entry fw pid stack st track iS c h3
  omega

/-- C5 amended: a track that adds an entry to the cut-3 histogram also adds one to the
cut-1 histogram; beyond that the cut indices are independent, the sample track filling
the cut-0, cut-1 and cut-3 histograms of the positive-index proton and neither the cut-2
nor the cut-4 one. -/
theorem cut3_fill_comes_with_cut1_not_cut2 {R B : Type} [LinearOrderedField R]
    [DecidableEq B] (fw : Framework R B) (pid : AliPIDResponse R)
    (stack : List (AliAODMCParticle R)) (st : State B) (track : AliAODTrack R) (iS c : Nat) :
    (((trackStep fw pid stack st track).fReconstructedYPhiPt iS c 3).fEntries
        = (st.fReconstructedYPhiPt iS c 3).fEntries + 1 →
      ((trackStep fw pid stack st track).fReconstructedYPhiPt iS c 1).fEntries
        = (st.fReconstructedYPhiPt iS c 1).fEntries + 1) ∧
    (passesTrackChecks sampleTable [primaryProton] matchedTrack = true ∧
      ∀ k, k < 5 →
        ((trackStep sampleFramework sampleResponse [primaryProton] emptyHistograms
            matchedTrack).fReconstructedYPhiPt 4 1 k).fEntries
          = (emptyHistograms.fReconstructedYPhiPt 4 1 k).fEntries
            + if k = 0 ∨ k = 1 ∨ k = 3 then 1 else 0) := by
  refine ⟨cut3_entry_gives_cut1_entry fw pid stack st track iS c, by decide, ?_⟩
  intro k hk
  have hs : findSpecies sampleFramework.pidTable |primaryProton.GetPdgCode| = some 4 := by
    decide
  rw [trackStep_of_passed sampleFramework sampleResponse [primaryProton] emptyHistograms
    matchedTrack primaryProton 4 (by decide) rfl rfl hs, fillCuts_reconstructed, sample_cuts]
  have hc : chargeIndex primaryProton = 1 := by decide
  interval_cases k <;> simp [hc, fNcuts, TH3D.FillBin]

/-- C5 amended, at the sample track: it adds an entry to the cut-3 histogram, hence to the
cut-1 histogram. -/
theorem cut3_fill_comes_with_cut1_not_cut2_witness :
    ((trackStep sampleFramework sampleResponse [primaryProton] emptyHistograms
        matchedTrack).fReconstructedYPhiPt 4 1 3).fEntries
      = (emptyHistograms.fReconstructedYPhiPt 4 1 3).fEntries + 1 ∧
    ((trackStep sampleFramework sampleResponse [primaryProton] emptyHistograms
        matchedTrack).fReconstructedYPhiPt 4 1 1).fEntries
      = (emptyHistograms.fReconstructedYPhiPt 4 1 1).fEntries + 1 :=
  ⟨(cut3_fill_comes_with_cut1_not_cut2 sampleFramework sampleResponse [primaryProton]
      emptyHistograms matchedTrack 4 1).2.2 3 (by decide),
    (cut3_fill_comes_with_cut1_not_cut2 sampleFramework sampleResponse [primaryProton]
      emptyHistograms matchedTrack 4 1).1
      ((cut3_fill_comes_with_cut1_not_cut2 sampleFramework sampleResponse [primaryProton]
        emptyHistograms matchedTrack 4 1).2.2 3 (by decide))⟩

/-! ## The fatal errors -/

/-- C6 as stated fails: in a run without PID response, an event without Monte Carlo
particle array that the gate rejects makes `UserExec` return normally. -/
theorem rejected_event_skips_fatal_checks :
    frameworkWithoutPID.GetPIDResponse = none ∧ rejectedEvent.mcparticles = none ∧
    frameworkWithoutPID.AcceptEvent rejectedEvent = false ∧
    UserExec frameworkWithoutPID emptyHistograms rejectedEvent = Except.ok emptyHistograms := by
  refine ⟨rfl, rfl, by decide, ?_⟩
  unfold UserExec
  rw [if_pos (by decide)]

/-- C6 amended: when the PID response or the Monte Carlo particle array is missing, an
accepted event ends `UserExec` in a fatal error with the histograms as they were (the
missing PID response is reported first), and a rejected event makes it return normally
with the histograms as they were. -/
theorem missing_input_is_fatal_once_accepted {R B : Type} [LinearOrderedField R]
    [DecidableEq B] (fw : Framework R B) (st : State B) (ev : AliVEvent R)
    (hmiss : fw.GetPIDResponse = none ∨ ev.mcparticles = none) :
    (fw.AcceptEvent ev = true →
      (∃ e, UserExec fw st ev = Except.error (e, st)) ∧
      (fw.GetPIDResponse = none →
        UserExec fw st ev = Except.error (FatalError.missingPIDResponse, st)) ∧
      (fw.GetPIDResponse ≠ none →
        UserExec fw st ev = Except.error (FatalError.missingMCParticleArray, st))) ∧
    (fw.AcceptEvent ev = false → UserExec fw st ev = Except.ok st) := by
  refine ⟨?_, ?_⟩
  · intro hacc
    unfold UserExec
    cases hp : fw.GetPIDResponse with
    | none => simp [hacc]
    | some pid =>
      rcases hmiss with h | h
      · rw [hp] at h
        cases h
      · simp [hacc, h]
  · intro hrej
    unfold UserExec
    rw [if_pos hrej]

/-- C6 amended, at the sample run without PID response and an accepted event. -/
theorem missing_input_is_fatal_once_accepted_witness :
    (frameworkWithoutPID.GetPIDResponse = none ∨ mixedEvent.mcparticles = none) ∧
    frameworkWithoutPID.AcceptEvent mixedEvent = true ∧
    UserExec frameworkWithoutPID emptyHistograms mixedEvent
      = Except.error (FatalError.missingPIDResponse, emptyHistograms) :=
  ⟨Or.inl rfl, by decide,
    ((missing_input_is_fatal_once_accepted frameworkWithoutPID emptyHistograms mixedEvent
      (Or.inl rfl)).1 (by decide)).2.1 rfl⟩

/-! ## The TOF prolongation -/

theorem hasTOF_eq_true_iff {R B : Type} [LinearOrderedField R] (fw : Framework R B)
    (track : AliAODTrack R) :
    HasTOF fw track = true ↔
      (track.GetStatus &&& fw.kTOFout ≠ 0 ∧ track.GetStatus &&& fw.kTIME ≠ 0 ∧
        350 < track.GetIntegratedLength) := by
  simp [HasTOF, and_assoc]

/-- C7: `HasTOF` holds exactly when the status has a bit of `kTOFout`, a bit of `kTIME`,
and the integrated length is strictly above 350: a length of exactly 350 gives false,
a length of 350.1 with both flags gives true, and the answer is a function of the
status, the length and the two masks alone. -/
theorem hasTOF_iff_flags_and_length {R B : Type} [LinearOrderedField R] (fw : Framework R B)
    (track : AliAODTrack R) :
    (HasTOF fw track = true ↔
      (track.GetStatus &&& fw.kTOFout ≠ 0 ∧ track.GetStatus &&& fw.kTIME ≠ 0 ∧
        350 < track.GetIntegratedLength)) ∧
    (track.GetIntegratedLength = 350 → HasTOF fw track = false) ∧
    (track.GetStatus &&& fw.kTOFout ≠ 0 → track.GetStatus &&& fw.kTIME ≠ 0 →
      track.GetIntegratedLength = 3501 / 10 → HasTOF fw track = true) ∧
    (∀ (fw2 : Framework R B) (track2 : AliAODTrack R),
      fw2.kTOFout = fw.kTOFout → fw2.kTIME = fw.kTIME →
      track2.GetStatus = track.GetStatus →
      track2.GetIntegratedLength = track.GetIntegratedLength →
      HasTOF fw2 track2 = HasTOF fw track) ∧
    HasTOF sampleFramework shortTrack = false ∧
    HasTOF sampleFramework matchedTrack = true := by
  have key := hasTOF_eq_true_iff fw track
  have a : (matchedTrack.GetStatus &&& sampleFramework.kTOFout) ≠ 0 := by decide
  have b : (matchedTrack.GetStatus &&& sampleFramework.kTIME) ≠ 0 := by decide
  refine ⟨key, ?_, ?_, ?_, ?_, ?_⟩
  · intro h
    rw [Bool.eq_false_iff, Ne, key, h]
    simp
  · intro h1 h2 h3
    rw [key, h3]
    exact ⟨h1, h2, by norm_num⟩
  · intro fw2 track2 e1 e2 e3 e4
    simp only [HasTOF, e1, e2, e3, e4]
  · simp [HasTOF, shortTrack]
  · exact (hasTOF_eq_true_iff sampleFramework matchedTrack).2
      ⟨a, b, by norm_num [matchedTrack]⟩

/-- C7 at the sample track shortened to a length of exactly 350 and at the sample track
of length 350.1. -/
theorem hasTOF_iff_flags_and_length_witness :
    (shortTrack.GetIntegratedLength = 350 ∧ HasTOF sampleFramework shortTrack = false) ∧
    (matchedTrack.GetStatus &&& sampleFramework.kTOFout ≠ 0 ∧
      matchedTrack.GetStatus &&& sampleFramework.kTIME ≠ 0 ∧
      matchedTrack.GetIntegratedLength = 3501 / 10 ∧
      HasTOF sampleFramework matchedTrack = true) :=
  ⟨⟨rfl, (hasTOF_iff_flags_and_length sampleFramework shortTrack).2.1 rfl⟩,
    by decide, by decide, rfl,
    (hasTOF_iff_flags_and_length sampleFramework matchedTrack).2.2.1 (by decide) (by decide)
      rfl⟩

/-! ## The coordinates of the reconstructed fills -/

theorem rapidity_neg_pt (tm : TMath ℝ) (hlog : tm.Log = Real.log) (pt eta phi m : ℝ) :
    TLorentzVector.Y tm (TLorentzVector.SetPtEtaPhiM tm (-pt) eta phi m)
      = - TLorentzVector.Y tm (TLorentzVector.SetPtEtaPhiM tm pt eta phi m) := by
  have key : ∀ E z : ℝ,
      1 / 2 * Real.log ((E + -z) / (E - -z)) = -(1 / 2 * Real.log ((E + z) / (E - z))) := by
    intro E z
    rw [← sub_eq_add_neg, sub_neg_eq_add, ← mul_neg, ← Real.log_inv, inv_div]
  simp only [TLorentzVector.Y, TLorentzVector.SetPtEtaPhiM, hlog]
  have e1 : -pt * tm.Cos phi * (-pt * tm.Cos phi) = pt * tm.Cos phi * (pt * tm.Cos phi) := by
    ring
  have e2 : -pt * tm.Sin phi * (-pt * tm.Sin phi) = pt * tm.Sin phi * (pt * tm.Sin phi) := by
    ring
  have e3 : -pt * tm.SinH eta * (-pt * tm.SinH eta)
      = pt * tm.SinH eta * (pt * tm.SinH eta) := by
    ring
  have e4 : -pt * tm.SinH eta = -(pt * tm.SinH eta) := by ring
  rw [e1, e2, e3, e4]
  exact key _ _

/-- C8: a track that passes the identifier, link and species checks fills the
reconstructed histograms of its true cuts at the rapidity of the four-vector set from
(track pt times the species charge value, track eta, track phi, species mass), at the
track phi and at the track pt.  With pt 2, charge value -1, eta 0.5, phi 1 and mass 0.938
the four-vector is the one set from pt -2, and over the reals, with the four-vector read
as in the spec, its rapidity is minus the rapidity of the one set from pt 2. -/
theorem reconstructed_fill_uses_signed_pt_rapidity {R B : Type} [LinearOrderedField R]
    [DecidableEq B] (fw : Framework R B) (pid : AliPIDResponse R)
    (stack : List (AliAODMCParticle R)) (st : State B) (track : AliAODTrack R)
    (part : AliAODMCParticle R) (iS : Nat)
    (hid : 0 < track.GetID) (hl : stack[track.GetLabel.natAbs]? = some part)
    (hp : part.IsPhysicalPrimary = true) (hlt : iS < fw.pidTable.kSPECIESC)
    (hcode : fw.pidTable.ParticleCode iS = |part.GetPdgCode|)
    (hfirst : ∀ j, j < iS → fw.pidTable.ParticleCode j ≠ |part.GetPdgCode|) :
    (∀ k, k < 5 →
      (trackStep fw pid stack st track).fReconstructedYPhiPt iS
          (if part.Charge > 0 then 1 else 0) k
        = if (cuts fw pid track iS).getD k false = true then
            (st.fReconstructedYPhiPt iS (if part.Charge > 0 then 1 else 0) k).Fill fw.FindBin
              (fw.rapidity (track.Pt * fw.pidTable.ParticleCharge iS) track.Eta track.Phi
                (fw.pidTable.ParticleMass iS))
              track.Phi track.Pt
          else st.fReconstructedYPhiPt iS (if part.Charge > 0 then 1 else 0) k) ∧
    (TLorentzVector.SetPtEtaPhiM
        (TMath.mk Real.cos Real.sin Real.sinh Real.sqrt Real.log) (2 * (-1)) (1 / 2) 1
        (938 / 1000)
      = TLorentzVector.SetPtEtaPhiM
        (TMath.mk Real.cos Real.sin Real.sinh Real.sqrt Real.log) (-2) (1 / 2) 1
        (938 / 1000)) ∧
    (TLorentzVector.Y (TMath.mk Real.cos Real.sin Real.sinh Real.sqrt Real.log)
        (TLorentzVector.SetPtEtaPhiM
          (TMath.mk Real.cos Real.sin Real.sinh Real.sqrt Real.log) (-2) (1 / 2) 1
          (938 / 1000))
      = - TLorentzVector.Y (TMath.mk Real.cos Real.sin Real.sinh Real.sqrt Real.log)
        (TLorentzVector.SetPtEtaPhiM
          (TMath.mk Real.cos Real.sin Real.sinh Real.sqrt Real.log) 2 (1 / 2) 1
          (938 / 1000))) := by
  have hs : findSpecies fw.pidTable |part.GetPdgCode| = some iS :=
    (findSpecies_eq_some_iff _ _ _).2 ⟨hlt, hcode, hfirst⟩
  refine ⟨?_, ?_, rapidity_neg_pt _ rfl 2 _ _ _⟩
  · intro k hk
    rw [trackStep_of_passed fw pid stack st track part iS hid hl hp hs, fillCuts_reconstructed]
    by_cases hf : (cuts fw pid track iS).getD k false = true
    · rw [if_pos hf, if_pos ⟨rfl, rfl, hk, hf⟩]
      rfl
    · rw [if_neg hf, if_neg (fun h => hf h.2.2.2)]
  · norm_num

/-- C8 at the sample track over the one-species table of charge value -1 and mass 0.938:
the cut-0 histogram is filled at the rapidity computed from pt `2 * (-1)`, at phi 1 and
at pt 2. -/
theorem reconstructed_fill_uses_signed_pt_rapidity_witness :
    (0 < matchedTrack.GetID ∧ [primaryProton][matchedTrack.GetLabel.natAbs]? = some primaryProton
      ∧ primaryProton.IsPhysicalPrimary = true ∧ 0 < signedFramework.pidTable.kSPECIESC
      ∧ signedFramework.pidTable.ParticleCode 0 = |primaryProton.GetPdgCode|
      ∧ ∀ j, j < 0 → signedFramework.pidTable.ParticleCode j ≠ |primaryProton.GetPdgCode|) ∧
    (trackStep signedFramework sampleResponse [primaryProton] emptyHistograms
        matchedTrack).fReconstructedYPhiPt 0 1 0
      = (emptyHistograms.fReconstructedYPhiPt 0 1 0).Fill signedFramework.FindBin
          (signedFramework.rapidity (2 * (-1)) (1 / 2) 1 (938 / 1000)) 1 2 :=
  ⟨⟨by decide, rfl, rfl, by decide, by decide, by decide⟩,
    (reconstructed_fill_uses_signed_pt_rapidity signedFramework sampleResponse
      [primaryProton] emptyHistograms matchedTrack primaryProton 0 (by decide) rfl rfl
      (by decide) (by decide) (by decide)).1 0 (by decide)⟩

/-! ## Tracks that are skipped -/

theorem passesTrackChecks_eq_false_iff {R : Type} (pidTable : AliPID R)
    (stack : List (AliAODMCParticle R)) (track : AliAODTrack R) :
    passesTrackChecks pidTable stack track = false ↔
      (track.GetID ≤ 0 ∨ stack[track.GetLabel.natAbs]? = none ∨
        ∃ part, stack[track.GetLabel.natAbs]? = some part ∧
          (part.IsPhysicalPrimary = false ∨
            ∀ j, j < pidTable.kSPECIESC → pidTable.ParticleCode j ≠ |part.GetPdgCode|)) := by
  unfold passesTrackChecks
  cases hl : stack[track.GetLabel.natAbs]? with
  | none => simp
  | some part =>
    have hr : isRecognizedPrimary pidTable part = false ↔
        (part.IsPhysicalPrimary = false ∨
          ∀ j, j < pidTable.kSPECIESC → pidTable.ParticleCode j ≠ |part.GetPdgCode|) := by
      rw [Bool.eq_false_iff, Ne, isRecognizedPrimary_iff]
      cases part.IsPhysicalPrimary <;> simp
    simp only [Bool.and_eq_false_iff, decide_eq_false_iff_not, not_lt, hr, false_or,
      Option.some.injEq, exists_eq_left', reduceCtorEq]

/-- C9: in an accepted event with PID response and Monte Carlo array, a track with a
non-positive identifier, with a label that resolves to no Monte Carlo particle, linked to
a particle that is not a physical primary, or linked to a particle whose absolute code is
in no species, leaves every histogram as it was and the loop goes on with the next track;
`UserExec` returns normally, with the result it gives on the event stripped of such
tracks, and an event without tracks leaves the reconstructed histograms as they were. -/
theorem skipped_tracks_change_nothing {R B : Type} [LinearOrderedField R] [DecidableEq B]
    (fw : Framework R B) (st : State B) (ev : AliVEvent R) (pid : AliPIDResponse R)
    (stack : List (AliAODMCParticle R))
    (hacc : fw.AcceptEvent ev = true) (hpid : fw.GetPIDResponse = some pid)
    (hstack : ev.mcparticles = some stack) :
    (∀ (g : State B) (track : AliAODTrack R) (rest : List (AliAODTrack R)),
      (track.GetID ≤ 0 ∨ stack[track.GetLabel.natAbs]? = none ∨
        ∃ part, stack[track.GetLabel.natAbs]? = some part ∧
          (part.IsPhysicalPrimary = false ∨
            ∀ j, j < fw.pidTable.kSPECIESC →
              fw.pidTable.ParticleCode j ≠ |part.GetPdgCode|)) →
      trackStep fw pid stack g track = g ∧
        trackLoop fw pid stack g (track :: rest) = trackLoop fw pid stack g rest) ∧
    (∃ st', UserExec fw st ev = Except.ok st' ∧
      trackLoop fw pid stack (truthLoop fw st stack)
          (ev.tracks.filter (passesTrackChecks fw.pidTable stack)) = st') ∧
    (ev.tracks = [] →
      ∃ st', UserExec fw st ev = Except.ok st' ∧
        st'.fReconstructedYPhiPt = st.fReconstructedYPhiPt) := by
  have hex : UserExec fw st ev
      = Except.ok (trackLoop fw pid stack (truthLoop fw st stack) ev.tracks) := by
    unfold UserExec
    simp [hacc, hpid, hstack]
  refine ⟨?_, ⟨_, hex, trackLoop_filter fw pid stack ev.tracks _⟩, ?_⟩
  · intro g track rest h
    have hf := (passesTrackChecks_eq_false_iff fw.pidTable stack track).2 h
    have hstep := trackStep_of_failed fw pid stack g track hf
    refine ⟨hstep, ?_⟩
    unfold trackLoop
    rw [List.foldl_cons, hstep]
  · intro hnil
    refine ⟨_, hex, ?_⟩
    rw [hnil]
    exact truthLoop_reconstructed fw stack st

/-- C9 at the sample event, whose second track has identifier zero. -/
theorem skipped_tracks_change_nothing_witness :
    (sampleFramework.AcceptEvent mixedEvent = true ∧
      sampleFramework.GetPIDResponse = some sampleResponse ∧
      mixedEvent.mcparticles = some [primaryProton, secondaryPion, primaryNeutron]) ∧
    zeroIdTrack.GetID ≤ 0 ∧
    trackStep sampleFramework sampleResponse [primaryProton, secondaryPion, primaryNeutron]
        emptyHistograms zeroIdTrack = emptyHistograms :=
  ⟨⟨by decide, rfl, rfl⟩, by decide,
    ((skipped_tracks_change_nothing sampleFramework emptyHistograms mixedEvent sampleResponse
      [primaryProton, secondaryPion, primaryNeutron] (by decide) rfl rfl).1
      emptyHistograms zeroIdTrack [] (Or.inl (by decide))).1⟩

/-! ## The cut ordering after any run -/

/-- C10: starting from the empty histograms of `UserCreateOutputObjects`, after any
sequence of events (up to a fatal error, if one occurs), in every bin of every species and
charge index the reconstructed content of cut 2, of cut 3 and of cut 4 is at most the
content of cut 1, which is at most the content of cut 0. -/
theorem cut_contents_ordered_after_any_run {R B : Type} [LinearOrderedField R]
    [DecidableEq B] (fw : Framework R B) (evs : List (AliVEvent R)) (iS c : Nat) (b : B) :
    ((histogramsOf (processEvents fw (UserCreateOutputObjects B fw.pidTable) evs)
        ).fReconstructedYPhiPt iS c 2).GetBinContent b
      ≤ ((histogramsOf (processEvents fw (UserCreateOutputObjects B fw.pidTable) evs)
        ).fReconstructedYPhiPt iS c 1).GetBinContent b ∧
    ((histogramsOf (processEvents fw (UserCreateOutputObjects B fw.pidTable) evs)
        ).fReconstructedYPhiPt iS c 3).GetBinContent b
      ≤ ((histogramsOf (processEvents fw (UserCreateOutputObjects B fw.pidTable) evs)
        ).fReconstructedYPhiPt iS c 1).GetBinContent b ∧
    ((histogramsOf (processEvents fw (UserCreateOutputObjects B fw.pidTable) evs)
        ).fReconstructedYPhiPt iS c 4).GetBinContent b
      ≤ ((histogramsOf (processEvents fw (UserCreateOutputObjects B fw.pidTable) evs)
        ).fReconstructedYPhiPt iS c 1).GetBinContent b ∧
    ((histogramsOf (processEvents fw (UserCreateOutputObjects B fw.pidTable) evs)
        ).fReconstructedYPhiPt iS c 1).GetBinContent b
      ≤ ((histogramsOf (processEvents fw (UserCreateOutputObjects B fw.pidTable) evs)
        ).fReconstructedYPhiPt iS c 0).GetBinContent b :=
  cutsOrdered_processEvents fw evs _ (cutsOrdered_UserCreateOutputObjects B fw.pidTable) iS c b

end AliAnalysisTaskLFefficiencies
